import Mathlib

/-
Verification development for the deepalert deduplication and task-fan-out
layer.  The repository service (src/internal/service/repository.go) is
embedded shallowly: machine state (the record store) is passed explicitly,
fallible operations return Except or Option results, and time is modelled
as Unix seconds.  Parts of the repository that are referenced but whose
sources are not shown (the deepalert value types, the attribute hash, the
internal errors package, the record-store adaptor and the inspector
dispatcher) are modelled from the specification; each such definition says
so in its doc comment.
-/

set_option maxHeartbeats 1000000

namespace DeepAlert

/-- Instants are modelled as Unix seconds; `time.Time.Add` of a
second-granularity duration followed by `Unix()` is integer addition. -/
abbrev Time := Int

/-- Modelled from the spec: `deepalert.ReportID` is a string identifier
(a freshly generated UUID string for new reports). -/
abbrev ReportID := String

/-- Modelled from the spec: `deepalert.AttrType` is a string enum. -/
abbrev AttrType := String

/-- JSON value tree.  Serialization (`encoding/json`) is modelled at the
JSON-tree level: the byte rendering of a tree is injective, so marshalling
to the tree and unmarshalling from it captures the round-trip and
failure behaviour of the code. -/
inductive Json where
  | null : Json
  | str : String → Json
  | num : Int → Json
  | arr : List Json → Json
  | obj : List (String × Json) → Json

/-- Modelled from the spec: the `deepalert.Attribute` value type
`(type: enum, key: string, value: string, context: opaque, timestamp:
optional)`.  The opaque context is modelled as a string. -/
structure Attribute where
  Type' : AttrType
  Key : String
  Value : String
  Context : String
  Timestamp : Option Time
deriving Repr, DecidableEq

/-- Length-prefixed (in unary) encoding of one string component, used by the
modelled attribute hash; the prefix makes concatenation of encoded
components injective. -/
def encStr (s : String) : List Char :=
  List.replicate s.data.length '1' ++ '0' :: s.data

/-- Modelled from the spec: `Attribute.Hash` of the deepalert package is not
among the shown sources.  The spec states the hash is deterministic over
type, key and value, excluding context and timestamp, and that two
attributes are duplicates iff their hashes collide.  The digest is modelled
as an injective encoding of the `(type, key, value)` triple, which realises
exactly those properties. -/
def Attribute.Hash (a : Attribute) : String :=
  ⟨encStr a.Type' ++ encStr a.Key ++ encStr a.Value⟩

/-- Modelled from the spec: `deepalert.Alert` is an externally sourced event
exposing a stable identity `AlertID()` derived from its identifying
fields. -/
structure Alert where
  Detector : String
  RuleName : String
  AlertKey : String
deriving Repr, DecidableEq

/-- Modelled from the spec: the stable alert identity. -/
def Alert.AlertID (a : Alert) : String :=
  a.Detector ++ "/" ++ a.RuleName ++ "/" ++ a.AlertKey

/-- Partition key used for alert entries: `"alertmap/" + alertID`
(repository.go line 41). -/
def alertPKey (alert : Alert) : String :=
  "alertmap/" ++ alert.AlertID

/-- Modelled from the spec: report status, `New` or `More`
(`deepalert.StatusNew` / `deepalert.StatusMore`). -/
inductive ReportStatus where
  | New : ReportStatus
  | More : ReportStatus
deriving Repr, DecidableEq

/-- Modelled from the spec: the derived report value
`(id: ReportID, status: New or More, createdAt)` returned by correlation. -/
structure Report where
  ID : ReportID
  Status : ReportStatus
  CreatedAt : Time
deriving Repr, DecidableEq

/-- Modelled from the spec: the internal errors package is not among the
shown sources.  A wrapped error carries a message (`Wrap`/`Wrapf` prepend
their own message to the cause), the values interpolated by `Wrapf`, and
the key/value pairs attached with `.With`. -/
structure DAError where
  msg : String
  args : List Json
  context : List (String × Json)

/-- `errors.Wrap(cause, msg)`. -/
def DAError.wrap (cause : String) (msg : String) : DAError :=
  ⟨msg ++ ": " ++ cause, [], []⟩

/-- `errors.Wrapf(cause, format, args...)`: the format arguments are kept
structurally rather than rendered into the message. -/
def DAError.wrapf (cause : String) (msg : String) (args : List Json) : DAError :=
  ⟨msg ++ ": " ++ cause, args, []⟩

/-- `(*errors.Error).With(key, value)`. -/
def DAError.With (e : DAError) (k : String) (v : Json) : DAError :=
  ⟨e.msg, e.args, e.context ++ [(k, v)]⟩

/-- Modelled from the spec: errors surfaced by the record-store adaptor are
classified as the distinguishable already-exists class of a failed
conditional write, or any other storage failure. -/
inductive RepoErr where
  | conditionalCheckFailed : RepoErr
  | other : String → RepoErr
deriving Repr, DecidableEq

/-- Message text of a storage error, used as the cause of wrapped errors. -/
def RepoErr.message : RepoErr → String
  | .conditionalCheckFailed => "ConditionalCheckFailedException"
  | .other m => m

/-- Modelled from the spec: `repo.IsConditionalCheckErr` recognises exactly
the already-exists class. -/
def IsConditionalCheckErr : RepoErr → Bool
  | .conditionalCheckFailed => true
  | .other _ => false

/-- `models.RecordBase`: the base envelope shared by stored records
(partition key, sort key, expiry in Unix seconds, creation time). -/
structure RecordBase where
  PKey : String
  SKey : String
  ExpiresAt : Int
  CreatedAt : Time
deriving Repr, DecidableEq

/-- `models.AlertEntry`: the record mapping an alert identity to its
report identifier (the dedup anchor). -/
structure AlertEntry extends RecordBase where
  ReportID : ReportID
deriving Repr, DecidableEq

/-- `models.AlertCache`: one serialized alert snapshot per delivery. -/
structure AlertCache where
  PKey : String
  SKey : String
  AlertData : Json
  ExpiresAt : Int

/-- `models.ReportSectionRecord`: one serialized inspector content unit. -/
structure ReportSectionRecord extends RecordBase where
  Data : Json

/-- `models.AttributeCache`: one record per distinct (report, attribute
hash) pair, holding the attribute fields and its (defaulted) timestamp. -/
structure AttributeCache extends RecordBase where
  Timestamp : Time
  AttrKey : String
  AttrType : String
  AttrValue : String
  AttrContext : String

/-- The record store state: the four record families kept by the
repository, each an append-ordered list of rows. -/
structure DB where
  alertEntries : List AlertEntry
  alertCaches : List AlertCache
  sectionRecords : List ReportSectionRecord
  attrCaches : List AttributeCache

/-- Alert entries stored at one (partition key, sort key). -/
def entriesAt (db : DB) (pk sk : String) : List AlertEntry :=
  db.alertEntries.filter (fun r => r.PKey == pk && r.SKey == sk)

/-- Attribute-cache rows stored at one (partition key, sort key). -/
def attrEntriesAt (db : DB) (pk sk : String) : List AttributeCache :=
  db.attrCaches.filter (fun r => r.PKey == pk && r.SKey == sk)

/-- Modelled from the spec: the record-store capability (the adaptor and
its DynamoDB implementation are not among the shown sources).  A
conditional put fails with the distinguishable already-exists class iff a
record already exists at the same key, atomically; otherwise it appends
the record. -/
def DB.putAlertEntry (db : DB) (e : AlertEntry) : Except RepoErr DB :=
  if (entriesAt db e.PKey e.SKey).isEmpty then
    .ok { db with alertEntries := db.alertEntries ++ [e] }
  else
    .error .conditionalCheckFailed

/-- Modelled from the spec: point read of an alert entry; a missing record
is any-other-class storage failure. -/
def DB.getAlertEntry (db : DB) (pk sk : String) : Except RepoErr AlertEntry :=
  match db.alertEntries.find? (fun r => r.PKey == pk && r.SKey == sk) with
  | some e => .ok e
  | none => .error (.other "record not found")

/-- Modelled from the spec: unconditional append of an alert snapshot. -/
def DB.putAlertCache (db : DB) (c : AlertCache) : DB :=
  { db with alertCaches := db.alertCaches ++ [c] }

/-- Modelled from the spec: scan of all alert snapshots under one
partition key, in append order. -/
def DB.getAlertCaches (db : DB) (pk : String) : List AlertCache :=
  db.alertCaches.filter (fun r => r.PKey == pk)

/-- Modelled from the spec: unconditional append of a section record. -/
def DB.putReportSectionRecord (db : DB) (r : ReportSectionRecord) : DB :=
  { db with sectionRecords := db.sectionRecords ++ [r] }

/-- Modelled from the spec: scan of all section records under one
partition key, in append order. -/
def DB.getReportSection (db : DB) (pk : String) : List ReportSectionRecord :=
  db.sectionRecords.filter (fun r => r.PKey == pk)

/-- Modelled from the spec: conditional put of an attribute-cache record,
failing with the already-exists class iff a record already exists at the
same (partition key, sort key). -/
def DB.putAttributeCache (db : DB) (c : AttributeCache) : Except RepoErr DB :=
  if (attrEntriesAt db c.PKey c.SKey).isEmpty then
    .ok { db with attrCaches := db.attrCaches ++ [c] }
  else
    .error .conditionalCheckFailed

/-- Modelled from the spec: scan of all attribute-cache records under one
partition key, in append order. -/
def DB.getAttributeCaches (db : DB) (pk : String) : List AttributeCache :=
  db.attrCaches.filter (fun r => r.PKey == pk)

/-- Field lookup in a JSON object (first binding wins, as in
`encoding/json`); `none` on a non-object or a missing field. -/
def Json.getField (j : Json) (k : String) : Option Json :=
  match j with
  | .obj fs => (fs.find? (fun p => p.1 == k)).map (fun p => p.2)
  | _ => none

/-- Decode a JSON string value. -/
def Json.asStr : Json → Except String String
  | .str s => .ok s
  | _ => .error "expected string"

/-- Decode a JSON number value. -/
def Json.asNum : Json → Except String Int
  | .num n => .ok n
  | _ => .error "expected number"

/-- Decode a list of JSON string values. -/
def decodeStrs : List Json → Except String (List String)
  | [] => .ok []
  | j :: rest => do
      let s ← j.asStr
      let ss ← decodeStrs rest
      pure (s :: ss)

/-- Encode a list of strings as a JSON array. -/
def encodeStrList (l : List String) : Json :=
  .arr (l.map Json.str)

/-- Decode a JSON array of strings. -/
def decodeStrList : Json → Except String (List String)
  | .arr xs => decodeStrs xs
  | _ => .error "expected array"

/-- Modelled from the spec: inspector-produced report content is an opaque
tagged union of content variants, with the variant tag preserved across
encode and decode; the host variant mirrors `deepalert.ReportHost` as used
by the repository's own tests. -/
inductive ReportContent where
  | host : List String → List String → List String → ReportContent
  | user : String → ReportContent
deriving Repr, DecidableEq

/-- Encode one report-content variant with its tag. -/
def encodeContent : ReportContent → Json
  | .host ipAddrs owners hostNames =>
      .obj [("tag", .str "host"), ("ipaddr", encodeStrList ipAddrs),
            ("owner", encodeStrList owners), ("hostname", encodeStrList hostNames)]
  | .user name => .obj [("tag", .str "user"), ("username", .str name)]

/-- Decode one report-content variant by its tag. -/
def decodeContent (j : Json) : Except String ReportContent := do
  let tag ← match j.getField "tag" with
    | some v => v.asStr
    | none => .error "missing tag"
  if tag = "host" then
    let ipAddrs ← match j.getField "ipaddr" with
      | some v => decodeStrList v
      | none => .error "missing ipaddr"
    let owners ← match j.getField "owner" with
      | some v => decodeStrList v
      | none => .error "missing owner"
    let hostNames ← match j.getField "hostname" with
      | some v => decodeStrList v
      | none => .error "missing hostname"
    pure (.host ipAddrs owners hostNames)
  else if tag = "user" then
    let name ← match j.getField "username" with
      | some v => v.asStr
      | none => .error "missing username"
    pure (.user name)
  else
    .error "unknown tag"

/-- Encode an attribute per the wire payload of the spec: type, key, value,
context, and the timestamp only when present. -/
def encodeAttribute (a : Attribute) : Json :=
  .obj ([("type", .str a.Type'), ("key", .str a.Key), ("value", .str a.Value),
         ("context", .str a.Context)] ++
        (match a.Timestamp with
         | none => []
         | some t => [("timestamp", .num t)]))

/-- Decode an attribute; an absent timestamp field decodes to `none`. -/
def decodeAttribute (j : Json) : Except String Attribute := do
  let t ← match j.getField "type" with
    | some v => v.asStr
    | none => .error "missing type"
  let k ← match j.getField "key" with
    | some v => v.asStr
    | none => .error "missing key"
  let v ← match j.getField "value" with
    | some w => w.asStr
    | none => .error "missing value"
  let c ← match j.getField "context" with
    | some v => v.asStr
    | none => .error "missing context"
  let ts ← match j.getField "timestamp" with
    | some v => do
        let n ← v.asNum
        pure (some n)
    | none => pure (none : Option Time)
  pure ⟨t, k, v, c, ts⟩

/-- Encode an alert snapshot. -/
def encodeAlert (a : Alert) : Json :=
  .obj [("detector", .str a.Detector), ("ruleName", .str a.RuleName),
        ("alertKey", .str a.AlertKey)]

/-- Decode an alert snapshot. -/
def decodeAlert (j : Json) : Except String Alert := do
  let d ← match j.getField "detector" with
    | some v => v.asStr
    | none => .error "missing detector"
  let r ← match j.getField "ruleName" with
    | some v => v.asStr
    | none => .error "missing ruleName"
  let k ← match j.getField "alertKey" with
    | some v => v.asStr
    | none => .error "missing alertKey"
  pure ⟨d, r, k⟩

/-- Modelled from the spec: `deepalert.ReportSection`, the content message
`(reportID, author, attribute, content)`. -/
structure ReportSection where
  ReportID : ReportID
  Author : String
  Attribute : Attribute
  Content : ReportContent
deriving Repr, DecidableEq

/-- Encode a report section. -/
def encodeSection (s : ReportSection) : Json :=
  .obj [("reportID", .str s.ReportID), ("author", .str s.Author),
        ("attribute", encodeAttribute s.Attribute),
        ("content", encodeContent s.Content)]

/-- Decode a report section. -/
def decodeSection (j : Json) : Except String ReportSection := do
  let rid ← match j.getField "reportID" with
    | some v => v.asStr
    | none => .error "missing reportID"
  let author ← match j.getField "author" with
    | some v => v.asStr
    | none => .error "missing author"
  let attr ← match j.getField "attribute" with
    | some v => decodeAttribute v
    | none => .error "missing attribute"
  let content ← match j.getField "content" with
    | some v => decodeContent v
    | none => .error "missing content"
  pure ⟨rid, author, attr, content⟩

/-- Modelled from the spec: `deepalert.Task`, the dispatched unit of work
`(reportID, attribute)`; also the attribute-queue wire payload. -/
structure Task where
  ReportID : ReportID
  Attribute : Attribute
deriving Repr, DecidableEq

/-- Encode a task (the attribute-queue message payload). -/
def encodeTask (t : Task) : Json :=
  .obj [("reportID", .str t.ReportID), ("attribute", encodeAttribute t.Attribute)]

/-- Modelled from the spec: `deepalert.TaskResult`, the output of one
inspector invocation. -/
structure TaskResult where
  Contents : List ReportContent
  NewAttributes : List Attribute
deriving Repr, DecidableEq

/-- The alert entry built by `TakeReport` (repository.go lines 39-47):
partition key `"alertmap/" + alertID`, the constant sort key `"Fixed"`,
expiry `now + ttl` in Unix seconds, creation time `now`, and the freshly
generated report identifier (`newReportID`, a fresh UUID, is passed in as
`freshID`). -/
def alertEntryOf (ttl : Int) (alert : Alert) (now : Time) (freshID : ReportID) : AlertEntry :=
  { PKey := alertPKey alert
    SKey := "Fixed"
    ExpiresAt := now + ttl
    CreatedAt := now
    ReportID := freshID }

/-- Embeds `TakeReport` (repository.go lines 35-71) as a function of the
outcomes of its two storage calls: `putResult` is the result of
`repo.PutAlertEntry` (`none` for success) and `getResult` the result of
the read-back `repo.GetAlertEntry`, consulted only on the already-exists
path. -/
def TakeReportCore (ttl : Int) (alert : Alert) (now : Time) (freshID : ReportID)
    (putResult : Option RepoErr) (getResult : Except RepoErr AlertEntry) :
    Except DAError Report :=
  let alertID := alert.AlertID
  let entry := alertEntryOf ttl alert now freshID
  match putResult with
  | some err =>
      if IsConditionalCheckErr err then
        match getResult with
        | .error e =>
            .error ((DAError.wrap e.message "Fail to get cached reportID").With
              "AlertID" (.str alertID))
        | .ok existedEntry =>
            .ok { ID := existedEntry.ReportID, Status := .More,
                  CreatedAt := existedEntry.CreatedAt }
      else
        .error (DAError.wrapf err.message "Fail to get cached reportID, AlertID=%s"
          [.str alertID])
  | none =>
      .ok { ID := entry.ReportID, Status := .New, CreatedAt := now }

/-- `TakeReport` run against the in-memory record store: the conditional
put and (on the already-exists path) the read-back are executed on `db`
and their outcomes fed to `TakeReportCore`. -/
def TakeReportDB (ttl : Int) (alert : Alert) (now : Time) (freshID : ReportID)
    (db : DB) : Except DAError Report × DB :=
  let entry := alertEntryOf ttl alert now freshID
  match db.putAlertEntry entry with
  | .ok db2 =>
      (TakeReportCore ttl alert now freshID none (db2.getAlertEntry entry.PKey entry.SKey), db2)
  | .error e =>
      (TakeReportCore ttl alert now freshID (some e) (db.getAlertEntry entry.PKey entry.SKey), db)

/-- `toAlertCacheKey` (repository.go lines 77-79); the fresh UUID suffix is
passed in as `u`. -/
def toAlertCacheKey (reportID : ReportID) (u : String) : String × String :=
  ("alert/" ++ reportID, "cache/" ++ u)

/-- `SaveAlertCache` (repository.go lines 81-100): serializes the alert and
appends a snapshot row (marshalling of the modelled alert value cannot
fail, and the in-memory unconditional put cannot fail). -/
def SaveAlertCache (ttl : Int) (u : String) (reportID : ReportID) (alert : Alert)
    (now : Time) (db : DB) : DB :=
  let raw := encodeAlert alert
  let (pk, sk) := toAlertCacheKey reportID u
  db.putAlertCache { PKey := pk, SKey := sk, AlertData := raw, ExpiresAt := now + ttl }

/-- The scan-and-deserialize loop of `FetchAlertCache` (repository.go lines
111-117): the first row whose payload fails to decode aborts the fetch
with the raw payload attached as error context. -/
def decodeAlertRows : List AlertCache → Except DAError (List Alert)
  | [] => .ok []
  | cache :: rest =>
      match decodeAlert cache.AlertData with
      | .error e =>
          .error ((DAError.wrap e "Fail to unmarshal alert").With "data" cache.AlertData)
      | .ok alert => do
          let alerts ← decodeAlertRows rest
          pure (alert :: alerts)

/-- `FetchAlertCache` (repository.go lines 102-120); the in-memory scan
cannot fail, so only deserialization failures remain. -/
def FetchAlertCache (reportID : ReportID) (u : String) (db : DB) :
    Except DAError (List Alert) :=
  let (pk, _) := toAlertCacheKey reportID u
  decodeAlertRows (db.getAlertCaches pk)

/-- `toReportSectionRecord` (repository.go lines 126-133); the fresh UUID
suffix is passed in as `u` and is used only when a section is given. -/
def toReportSectionRecord (reportID : ReportID) (sec : Option ReportSection)
    (u : String) : String × String :=
  ("content/" ++ reportID,
    match sec with
    | none => ""
    | some s => s.Attribute.Hash ++ "/" ++ u)

/-- `SaveReportSection` (repository.go lines 135-156): serializes the
section and appends a record under the section's report (the in-memory
unconditional put cannot fail, so no wrapping occurs). -/
def SaveReportSection (ttl : Int) (u : String) (sec : ReportSection) (now : Time)
    (db : DB) : DB :=
  let raw := encodeSection sec
  let (pk, sk) := toReportSectionRecord sec.ReportID (some sec) u
  db.putReportSectionRecord
    { PKey := pk, SKey := sk, ExpiresAt := now + ttl, CreatedAt := 0, Data := raw }

/-- The scan-and-deserialize loop of `FetchReportSection` (repository.go
lines 166-174): the first row whose payload fails to decode aborts the
fetch, with the offending record's raw payload carried as a format
argument of the wrapped error. -/
def decodeSectionRows : List ReportSectionRecord → Except DAError (List ReportSection)
  | [] => .ok []
  | record :: rest =>
      match decodeSection record.Data with
      | .error e =>
          .error (DAError.wrapf e "Fail to unmarshal report content: %v %s" [record.Data])
      | .ok s => do
          let sections ← decodeSectionRows rest
          pure (s :: sections)

/-- `FetchReportSection` (repository.go lines 158-177). -/
def FetchReportSection (reportID : ReportID) (db : DB) :
    Except DAError (List ReportSection) :=
  let (pk, _) := toReportSectionRecord reportID none ""
  decodeSectionRows (db.getReportSection pk)

/-- `toAttributeCacheKey` (repository.go lines 183-185). -/
def toAttributeCacheKey (reportID : ReportID) : String :=
  "attribute/" ++ reportID

/-- The attribute-cache record built by `PutAttributeCache` (repository.go
lines 190-208): sort key is the attribute's hash, and the stored timestamp
is the attribute's own timestamp, defaulting to `now` when absent. -/
def attributeCacheOf (ttl : Int) (reportID : ReportID) (attr : Attribute)
    (now : Time) : AttributeCache :=
  let ts : Time :=
    match attr.Timestamp with
    | some t => t
    | none => now
  { PKey := toAttributeCacheKey reportID
    SKey := attr.Hash
    ExpiresAt := now + ttl
    CreatedAt := 0
    Timestamp := ts
    AttrKey := attr.Key
    AttrType := attr.Type'
    AttrValue := attr.Value
    AttrContext := attr.Context }

/-- Embeds the result classification of `PutAttributeCache` (repository.go
lines 210-219) as a function of the conditional write's outcome
(`none` for success): already-exists is success with `false`, any other
failure is `(false, wrapped error)`, success is `(true, no error)`. -/
def PutAttributeCacheCore (reportID : ReportID) (attr : Attribute)
    (putResult : Option RepoErr) : Bool × Option DAError :=
  match putResult with
  | some err =>
      if IsConditionalCheckErr err then (false, none)
      else
        (false, some (DAError.wrapf err.message "Fail to put attr cache reportID=%s, %v"
          [.str reportID, encodeAttribute attr]))
  | none => (true, none)

/-- `PutAttributeCache` (repository.go lines 189-220) run against the
in-memory record store. -/
def PutAttributeCacheDB (ttl : Int) (reportID : ReportID) (attr : Attribute)
    (now : Time) (db : DB) : (Bool × Option DAError) × DB :=
  let cache := attributeCacheOf ttl reportID attr now
  match db.putAttributeCache cache with
  | .ok db2 => (PutAttributeCacheCore reportID attr none, db2)
  | .error e => (PutAttributeCacheCore reportID attr (some e), db)

/-- `FetchAttributeCache` (repository.go lines 223-245): reconstructs each
cached attribute from the stored fields; the reconstructed timestamp is
always present (`&cache.Timestamp`).  The in-memory scan cannot fail. -/
def FetchAttributeCache (reportID : ReportID) (db : DB) : List Attribute :=
  (db.getAttributeCaches (toAttributeCacheKey reportID)).map (fun cache =>
    { Type' := cache.AttrType
      Key := cache.AttrKey
      Value := cache.AttrValue
      Context := cache.AttrContext
      Timestamp := some cache.Timestamp })

/-- Modelled from the spec: the dispatcher configuration of the inspector
runtime (author identity and the two queue destinations). -/
structure InspectorArguments where
  Author : String
  ContentQueueURL : String
  AttrQueueURL : String
deriving Repr, DecidableEq

/-- One published queue message: destination and serialized payload. -/
structure SendMessageInput where
  QueueUrl : String
  MessageBody : Json

/-- Modelled from the spec: the inspector package's task dispatcher
(`HandleTask`) is not among the shown sources (only its test is).  On a
non-nil task result it publishes one content message per content item, in
the order returned, to the content queue, then one attribute message per
new attribute, in the order returned, to the attribute queue; on a nil
result it publishes nothing.  The queue client is modelled as
always-successful, recording the requests in order, as in the
repository's own test. -/
def HandleTask (args : InspectorArguments) (task : Task)
    (result : Option TaskResult) : List SendMessageInput :=
  match result with
  | none => []
  | some r =>
      r.Contents.map (fun content =>
        { QueueUrl := args.ContentQueueURL
          MessageBody := encodeSection
            { ReportID := task.ReportID, Author := args.Author,
              Attribute := task.Attribute, Content := content } }) ++
      r.NewAttributes.map (fun attr =>
        { QueueUrl := args.AttrQueueURL
          MessageBody := encodeTask { ReportID := task.ReportID, Attribute := attr } })

/-- One concurrent `TakeReport` caller, split at its atomic storage
operations: about to attempt the conditional put (with its own fresh
report identifier and its own clock reading), about to read back after an
already-exists failure, or finished with a result. -/
inductive TakeState where
  | start : ReportID → Time → TakeState
  | reading : TakeState
  | done : Except DAError Report → TakeState

/-- Whether a caller has finished. -/
def TakeState.isDone : TakeState → Bool
  | .done _ => true
  | _ => false

/-- Whether a caller has finished with a `New` report. -/
def isNewDone : TakeState → Bool
  | .done (.ok ⟨_, .New, _⟩) => true
  | _ => false

/-- One atomic step of a `TakeReport` caller (repository.go lines 49-70
split at the two storage calls): the put either succeeds and finishes with
`New`, or fails already-exists and moves to the read-back, which finishes
with `More` from the existing entry (or the wrapped error when the read
fails); local computation between storage calls is part of the adjacent
step. -/
def stepCaller (ttl : Int) (alert : Alert) (db : DB) : TakeState → DB × TakeState
  | .start freshID now =>
      let entry := alertEntryOf ttl alert now freshID
      match db.putAlertEntry entry with
      | .ok db2 =>
          (db2, .done (.ok { ID := entry.ReportID, Status := .New, CreatedAt := now }))
      | .error e =>
          if IsConditionalCheckErr e then (db, .reading)
          else
            (db, .done (.error (DAError.wrapf e.message
              "Fail to get cached reportID, AlertID=%s" [.str alert.AlertID])))
  | .reading =>
      match db.getAlertEntry (alertPKey alert) "Fixed" with
      | .ok existedEntry =>
          (db, .done (.ok { ID := existedEntry.ReportID, Status := .More,
                            CreatedAt := existedEntry.CreatedAt }))
      | .error e =>
          (db, .done (.error ((DAError.wrap e.message "Fail to get cached reportID").With
            "AlertID" (.str alert.AlertID))))
  | .done r => (db, .done r)

/-- Scheduler step: advance caller `i`; an out-of-range index or a finished
caller leaves the system unchanged. -/
def stepSys (ttl : Int) (alert : Alert) (s : DB × List TakeState) (i : Nat) :
    DB × List TakeState :=
  match s.2.get? i with
  | none => s
  | some st =>
      let r := stepCaller ttl alert s.1 st
      (r.1, s.2.set i r.2)

/-- Run the concurrent system under a schedule (the list of caller indices
in the order their next atomic operations hit the store). -/
def runSys (ttl : Int) (alert : Alert) (s : DB × List TakeState) :
    List Nat → DB × List TakeState
  | [] => s
  | i :: rest => runSys ttl alert (stepSys ttl alert s i) rest

/-- Invariant of the concurrent correlation system: the number of entries
stored at the alert's key equals the number of callers finished with
`New` and is at most one; a caller at the read-back step has an entry to
read; and every finished caller holds an ok report whose identifier is the
stored entry's report identifier, with status `New` or `More`. -/
def Inv (alert : Alert) (s : DB × List TakeState) : Prop :=
  (entriesAt s.1 (alertPKey alert) "Fixed").length = s.2.countP isNewDone ∧
  (entriesAt s.1 (alertPKey alert) "Fixed").length ≤ 1 ∧
  ∀ st ∈ s.2,
    (st = .reading → entriesAt s.1 (alertPKey alert) "Fixed" ≠ []) ∧
    (∀ r, st = .done r → ∃ rep e, r = Except.ok rep ∧
      entriesAt s.1 (alertPKey alert) "Fixed" = [e] ∧ rep.ID = e.ReportID ∧
      (rep.Status = .New ∨ rep.Status = .More))

/-- The initial caller pool: one caller per delivery, each with its own
fresh report identifier and clock reading. -/
def initSys (inits : List (ReportID × Time)) : List TakeState :=
  inits.map (fun p => TakeState.start p.1 p.2)

/-- The system state after running a schedule from an initial store and
caller pool. -/
def finalSys (ttl : Int) (alert : Alert) (inits : List (ReportID × Time))
    (db0 : DB) (sched : List Nat) : DB × List TakeState :=
  runSys ttl alert (db0, initSys inits) sched

/-
Helper lemmas: injectivity of the modelled hash digest.
-/

theorem replicate_append_cons_inj {c d : Char} (hcd : c ≠ d) :
    ∀ (n m : Nat) (xs ys : List Char),
      List.replicate n c ++ d :: xs = List.replicate m c ++ d :: ys →
      n = m ∧ xs = ys := by
  intro n
  induction n with
  | zero =>
      intro m xs ys h
      cases m with
      | zero => simpa using h
      | succ m =>
          rw [List.replicate_succ] at h
          simp at h
          exact absurd h.1.symm hcd
  | succ n ih =>
      intro m xs ys h
      cases m with
      | zero =>
          rw [List.replicate_succ] at h
          simp at h
          exact absurd h.1 hcd
      | succ m =>
          rw [List.replicate_succ, List.replicate_succ] at h
          simp only [List.cons_append, List.cons.injEq] at h
          obtain ⟨hn, hxy⟩ := ih m xs ys h.2
          exact ⟨by omega, hxy⟩

theorem encStr_append_inj {a b : String} {x y : List Char}
    (h : encStr a ++ x = encStr b ++ y) : a = b ∧ x = y := by
  unfold encStr at h
  simp only [List.append_assoc, List.cons_append] at h
  obtain ⟨hlen, happ⟩ :=
    replicate_append_cons_inj (by decide : ('1' : Char) ≠ '0') _ _ _ _ h
  obtain ⟨hdata, hxy⟩ := List.append_inj happ hlen
  exact ⟨congrArg String.mk hdata, hxy⟩

theorem hash_eq_iff (a b : Attribute) :
    a.Hash = b.Hash ↔ (a.Type' = b.Type' ∧ a.Key = b.Key ∧ a.Value = b.Value) := by
  constructor
  · intro h
    have hd : encStr a.Type' ++ (encStr a.Key ++ encStr a.Value)
        = encStr b.Type' ++ (encStr b.Key ++ encStr b.Value) := by
      have h2 := congrArg String.data h
      simpa [Attribute.Hash, List.append_assoc] using h2
    obtain ⟨ht, h3⟩ := encStr_append_inj hd
    obtain ⟨hk, h4⟩ := encStr_append_inj h3
    have h5 : encStr a.Value ++ [] = encStr b.Value ++ [] := by simpa using h4
    exact ⟨ht, hk, (encStr_append_inj h5).1⟩
  · rintro ⟨ht, hk, hv⟩
    simp [Attribute.Hash, ht, hk, hv]

/-
Helper lemmas: Except monadic reductions and serialization round trips.
-/

theorem except_bind_ok {α β ε : Type} (a : α) (f : α → Except ε β) :
    (Except.ok a >>= f : Except ε β) = f a := rfl

theorem except_bind_err {α β ε : Type} (e : ε) (f : α → Except ε β) :
    ((Except.error e : Except ε α) >>= f : Except ε β) = Except.error e := rfl

theorem except_pure {α ε : Type} (a : α) : (pure a : Except ε α) = Except.ok a := rfl

theorem decodeStrs_encode (l : List String) :
    decodeStrs (l.map Json.str) = Except.ok l := by
  induction l with
  | nil => rfl
  | cons s rest ih =>
      simp [decodeStrs, Json.asStr, ih, except_bind_ok, except_pure]

theorem decodeStrList_encode (l : List String) :
    decodeStrList (encodeStrList l) = Except.ok l := by
  simp [decodeStrList, encodeStrList, decodeStrs_encode]

theorem decodeContent_encode (c : ReportContent) :
    decodeContent (encodeContent c) = Except.ok c := by
  cases c with
  | host ipAddrs owners hostNames =>
      simp [decodeContent, encodeContent, Json.getField, List.find?, Json.asStr,
        decodeStrList_encode, except_bind_ok, except_pure]
  | user name =>
      simp [decodeContent, encodeContent, Json.getField, List.find?, Json.asStr,
        except_bind_ok, except_pure]

theorem decodeAttribute_encode (a : Attribute) :
    decodeAttribute (encodeAttribute a) = Except.ok a := by
  obtain ⟨t, k, v, c, ts⟩ := a
  cases ts with
  | none =>
      simp [decodeAttribute, encodeAttribute, Json.getField, List.find?, Json.asStr,
        Json.asNum, except_bind_ok, except_pure]
  | some time =>
      simp [decodeAttribute, encodeAttribute, Json.getField, List.find?, Json.asStr,
        Json.asNum, except_bind_ok, except_pure]

theorem decodeAlert_encode (a : Alert) :
    decodeAlert (encodeAlert a) = Except.ok a := by
  obtain ⟨d, r, k⟩ := a
  simp [decodeAlert, encodeAlert, Json.getField, List.find?, Json.asStr,
    except_bind_ok, except_pure]

theorem decodeSection_encode (s : ReportSection) :
    decodeSection (encodeSection s) = Except.ok s := by
  obtain ⟨rid, author, attr, content⟩ := s
  simp [decodeSection, encodeSection, Json.getField, List.find?, Json.asStr,
    decodeAttribute_encode, decodeContent_encode, except_bind_ok, except_pure]

/-
Claim theorems.
-/

/-- C8: attribute hash stability — attributes agreeing on type, key and
value hash identically regardless of context and timestamp, and attributes
differing in any of type, key or value hash differently. -/
theorem attribute_hash_stability (a b : Attribute) :
    (a.Type' = b.Type' → a.Key = b.Key → a.Value = b.Value → a.Hash = b.Hash) ∧
    (a.Type' ≠ b.Type' ∨ a.Key ≠ b.Key ∨ a.Value ≠ b.Value → a.Hash ≠ b.Hash) := by
  constructor
  · intro ht hk hv
    exact (hash_eq_iff a b).mpr ⟨ht, hk, hv⟩
  · intro hdiff heq
    obtain ⟨ht, hk, hv⟩ := (hash_eq_iff a b).mp heq
    rcases hdiff with h | h | h
    · exact h ht
    · exact h hk
    · exact h hv

/-- Witness for the attribute hash stability theorem: a concrete pair
differing only in context and timestamp hashes identically, and a concrete
pair differing in the key hashes differently. -/
theorem attribute_hash_stability_witness :
    (Attribute.mk "ipaddr" "dst" "10.0.0.1" "ctxA" none).Hash
      = (Attribute.mk "ipaddr" "dst" "10.0.0.1" "ctxB" (some 99)).Hash ∧
    (Attribute.mk "ipaddr" "dst" "10.0.0.1" "ctxA" none).Hash
      ≠ (Attribute.mk "ipaddr" "src" "10.0.0.1" "ctxA" none).Hash := by
  constructor
  · exact (attribute_hash_stability _ _).1 rfl rfl rfl
  · exact (attribute_hash_stability _ _).2 (Or.inr (Or.inl (by decide)))

/-- C7: dispatch ordering — on a task result with n contents and m new
attributes the dispatcher publishes exactly n + m messages, the first n
being the content messages to the content queue in input order and the
last m being the attribute messages to the attribute queue in input
order. -/
theorem dispatch_ordering (args : InspectorArguments) (task : Task) (r : TaskResult) :
    (HandleTask args task (some r)).length
      = r.Contents.length + r.NewAttributes.length ∧
    (HandleTask args task (some r)).take r.Contents.length
      = r.Contents.map (fun content =>
          { QueueUrl := args.ContentQueueURL
            MessageBody := encodeSection
              { ReportID := task.ReportID, Author := args.Author,
                Attribute := task.Attribute, Content := content } }) ∧
    (HandleTask args task (some r)).drop r.Contents.length
      = r.NewAttributes.map (fun attr =>
          { QueueUrl := args.AttrQueueURL
            MessageBody := encodeTask { ReportID := task.ReportID, Attribute := attr } }) := by
  refine ⟨?_, ?_, ?_⟩
  · simp [HandleTask]
  · simp only [HandleTask]
    exact List.take_left' (by simp)
  · simp only [HandleTask]
    exact List.drop_left' (by simp)

/-- C1: when the conditional write of the alert entry succeeds (no record
exists at its key), TakeReport returns an ok report with status New, the
freshly generated report identifier stored in the entry, and createdAt
now; the entry written carries partition key "alertmap/" plus the alert
identity, sort key "Fixed" and expiry now plus the TTL in Unix seconds. -/
theorem takeReport_conditional_write_success (ttl : Int) (alert : Alert) (now : Time)
    (freshID : ReportID) (db : DB)
    (h : entriesAt db (alertPKey alert) "Fixed" = []) :
    TakeReportDB ttl alert now freshID db
      = (Except.ok { ID := freshID, Status := .New, CreatedAt := now },
         { db with alertEntries := db.alertEntries ++ [alertEntryOf ttl alert now freshID] }) ∧
    (alertEntryOf ttl alert now freshID).PKey = "alertmap/" ++ alert.AlertID ∧
    (alertEntryOf ttl alert now freshID).SKey = "Fixed" ∧
    (alertEntryOf ttl alert now freshID).ExpiresAt = now + ttl ∧
    (alertEntryOf ttl alert now freshID).ReportID = freshID ∧
    (alertEntryOf ttl alert now freshID).CreatedAt = now := by
  refine ⟨?_, rfl, rfl, rfl, rfl, rfl⟩
  unfold TakeReportDB DB.putAlertEntry
  dsimp only [alertEntryOf]
  rw [h]
  simp [TakeReportCore, alertEntryOf]

/-- Witness for the successful-write path of TakeReport at a concrete
alert, clock and store. -/
theorem takeReport_conditional_write_success_witness :
    entriesAt ⟨[], [], [], []⟩ (alertPKey ⟨"d", "r", "k"⟩) "Fixed" = [] ∧
    TakeReportDB 10 ⟨"d", "r", "k"⟩ 100 "rid-1" ⟨[], [], [], []⟩
      = (Except.ok { ID := "rid-1", Status := .New, CreatedAt := 100 },
         { alertEntries := [alertEntryOf 10 ⟨"d", "r", "k"⟩ 100 "rid-1"],
           alertCaches := [], sectionRecords := [], attrCaches := [] }) := by
  refine ⟨rfl, ?_⟩
  have h := (takeReport_conditional_write_success 10 ⟨"d", "r", "k"⟩ 100 "rid-1"
    ⟨[], [], [], []⟩ rfl).1
  simpa using h

/-- C2: on an already-exists conditional-write failure TakeReport reads
back the existing entry and returns status More with the existing entry's
report identifier and creation time and no error; if the read-back fails,
it returns no report and a wrapped error carrying the alert identity as
context; any other storage error from the write is returned wrapped with
the alert identity, with no report. -/
theorem takeReport_conflict_and_error_paths (ttl : Int) (alert : Alert) (now : Time)
    (freshID : ReportID) (perr : RepoErr) (gres : Except RepoErr AlertEntry) :
    (IsConditionalCheckErr perr = true →
      (∀ ex, gres = Except.ok ex →
        TakeReportCore ttl alert now freshID (some perr) gres
          = Except.ok { ID := ex.ReportID, Status := .More, CreatedAt := ex.CreatedAt }) ∧
      (∀ ge, gres = Except.error ge →
        ∃ e, TakeReportCore ttl alert now freshID (some perr) gres = Except.error e ∧
          ("AlertID", Json.str alert.AlertID) ∈ e.context)) ∧
    (IsConditionalCheckErr perr = false →
      ∃ e, TakeReportCore ttl alert now freshID (some perr) gres = Except.error e ∧
        Json.str alert.AlertID ∈ e.args) := by
  constructor
  · intro hc
    constructor
    · rintro ex rfl
      simp [TakeReportCore, hc]
    · rintro ge rfl
      refine ⟨(DAError.wrap ge.message "Fail to get cached reportID").With
        "AlertID" (.str alert.AlertID), ?_, ?_⟩
      · simp [TakeReportCore, hc]
      · simp [DAError.With, DAError.wrap]
  · intro hc
    refine ⟨DAError.wrapf perr.message "Fail to get cached reportID, AlertID=%s"
      [.str alert.AlertID], ?_, ?_⟩
    · simp [TakeReportCore, hc]
    · simp [DAError.wrapf]

/-- Witness for the conflict and error paths of TakeReport at concrete
inputs: the already-exists class with a successful read-back, the
already-exists class with a failing read-back, and an unrelated storage
failure. -/
theorem takeReport_conflict_and_error_paths_witness :
    (IsConditionalCheckErr RepoErr.conditionalCheckFailed = true ∧
     TakeReportCore 10 ⟨"d", "r", "k"⟩ 100 "rid-2" (some RepoErr.conditionalCheckFailed)
        (Except.ok { PKey := "alertmap/d/r/k", SKey := "Fixed", ExpiresAt := 60,
                     CreatedAt := 50, ReportID := "rid-1" })
       = Except.ok { ID := "rid-1", Status := .More, CreatedAt := 50 }) ∧
    (∃ e, TakeReportCore 10 ⟨"d", "r", "k"⟩ 100 "rid-2"
        (some RepoErr.conditionalCheckFailed) (Except.error (RepoErr.other "boom"))
        = Except.error e ∧
      ("AlertID", Json.str (Alert.AlertID ⟨"d", "r", "k"⟩)) ∈ e.context) ∧
    (IsConditionalCheckErr (RepoErr.other "oops") = false ∧
     ∃ e, TakeReportCore 10 ⟨"d", "r", "k"⟩ 100 "rid-2" (some (RepoErr.other "oops"))
        (Except.error (RepoErr.other "boom")) = Except.error e ∧
      Json.str (Alert.AlertID ⟨"d", "r", "k"⟩) ∈ e.args) := by
  refine ⟨⟨rfl, ?_⟩, ?_, rfl, ?_⟩
  · exact ((takeReport_conflict_and_error_paths 10 ⟨"d", "r", "k"⟩ 100 "rid-2"
      RepoErr.conditionalCheckFailed _).1 rfl).1 _ rfl
  · exact ((takeReport_conflict_and_error_paths 10 ⟨"d", "r", "k"⟩ 100 "rid-2"
      RepoErr.conditionalCheckFailed _).1 rfl).2 _ rfl
  · exact (takeReport_conflict_and_error_paths 10 ⟨"d", "r", "k"⟩ 100 "rid-2"
      (RepoErr.other "oops") _).2 rfl

/-- C3: PutAttributeCache returns (true, no error) when the conditional
write succeeds, (false, no error) when it fails with the already-exists
class, (false, wrapped error mentioning the report identity) on any other
storage failure, and never returns true together with an error. -/
theorem putAttributeCache_result_classes (reportID : ReportID) (attr : Attribute)
    (perr : RepoErr) :
    PutAttributeCacheCore reportID attr none = (true, none) ∧
    (IsConditionalCheckErr perr = true →
      PutAttributeCacheCore reportID attr (some perr) = (false, none)) ∧
    (IsConditionalCheckErr perr = false →
      ∃ e, PutAttributeCacheCore reportID attr (some perr) = (false, some e) ∧
        Json.str reportID ∈ e.args) ∧
    (∀ pr e, PutAttributeCacheCore reportID attr pr ≠ (true, some e)) := by
  refine ⟨rfl, ?_, ?_, ?_⟩
  · intro hc
    simp [PutAttributeCacheCore, hc]
  · intro hc
    refine ⟨DAError.wrapf perr.message "Fail to put attr cache reportID=%s, %v"
      [.str reportID, encodeAttribute attr], ?_, ?_⟩
    · simp [PutAttributeCacheCore, hc]
    · simp [DAError.wrapf]
  · intro pr e
    cases pr with
    | none => simp [PutAttributeCacheCore]
    | some err =>
        by_cases hc : IsConditionalCheckErr err <;>
          simp [PutAttributeCacheCore, hc]

/-- Witness for the PutAttributeCache result classes at concrete inputs. -/
theorem putAttributeCache_result_classes_witness :
    PutAttributeCacheCore "R1" ⟨"ipaddr", "dst", "1.2.3.4", "c", none⟩ none
      = (true, none) ∧
    (IsConditionalCheckErr RepoErr.conditionalCheckFailed = true ∧
     PutAttributeCacheCore "R1" ⟨"ipaddr", "dst", "1.2.3.4", "c", none⟩
        (some RepoErr.conditionalCheckFailed) = (false, none)) ∧
    (IsConditionalCheckErr (RepoErr.other "oops") = false ∧
     ∃ e, PutAttributeCacheCore "R1" ⟨"ipaddr", "dst", "1.2.3.4", "c", none⟩
        (some (RepoErr.other "oops")) = (false, some e) ∧ Json.str "R1" ∈ e.args) ∧
    (∀ e, PutAttributeCacheCore "R1" ⟨"ipaddr", "dst", "1.2.3.4", "c", none⟩
        (some (RepoErr.other "oops")) ≠ (true, some e)) := by
  refine ⟨?_, ⟨rfl, ?_⟩, ⟨rfl, ?_⟩, ?_⟩
  · exact (putAttributeCache_result_classes "R1" _ RepoErr.conditionalCheckFailed).1
  · exact (putAttributeCache_result_classes "R1" _ RepoErr.conditionalCheckFailed).2.1 rfl
  · exact (putAttributeCache_result_classes "R1" _ (RepoErr.other "oops")).2.2.1 rfl
  · intro e
    exact (putAttributeCache_result_classes "R1" _ (RepoErr.other "oops")).2.2.2 _ e

/-- C6: the attribute-cache record written by PutAttributeCache has the
attribute's deterministic hash as its sort key; its stored timestamp is
the attribute's own timestamp when the attribute carries one and the
current time when absent; on a successful conditional write exactly this
record is appended. -/
theorem attributeCache_record_shape (ttl : Int) (reportID : ReportID)
    (attr : Attribute) (now : Time) (db : DB) :
    (attributeCacheOf ttl reportID attr now).SKey = attr.Hash ∧
    (∀ t, attr.Timestamp = some t →
      (attributeCacheOf ttl reportID attr now).Timestamp = t) ∧
    (attr.Timestamp = none →
      (attributeCacheOf ttl reportID attr now).Timestamp = now) ∧
    (attrEntriesAt db (toAttributeCacheKey reportID) attr.Hash = [] →
      PutAttributeCacheDB ttl reportID attr now db
        = ((true, none),
           { db with attrCaches := db.attrCaches ++ [attributeCacheOf ttl reportID attr now] })) := by
  refine ⟨rfl, ?_, ?_, ?_⟩
  · intro t ht
    simp [attributeCacheOf, ht]
  · intro ht
    simp [attributeCacheOf, ht]
  · intro h
    unfold PutAttributeCacheDB DB.putAttributeCache
    dsimp only [attributeCacheOf]
    rw [h]
    simp [PutAttributeCacheCore, attributeCacheOf]

/-- Witness for the attribute-cache record shape at a concrete attribute
without a timestamp and an empty store. -/
theorem attributeCache_record_shape_witness :
    (attributeCacheOf 10 "R1" ⟨"ipaddr", "dst", "1.2.3.4", "c", none⟩ 7).SKey
      = (Attribute.mk "ipaddr" "dst" "1.2.3.4" "c" none).Hash ∧
    ((Attribute.mk "ipaddr" "dst" "1.2.3.4" "c" none).Timestamp = none ∧
     (attributeCacheOf 10 "R1" ⟨"ipaddr", "dst", "1.2.3.4", "c", none⟩ 7).Timestamp = 7) ∧
    (attrEntriesAt ⟨[], [], [], []⟩ (toAttributeCacheKey "R1")
        (Attribute.mk "ipaddr" "dst" "1.2.3.4" "c" none).Hash = [] ∧
     PutAttributeCacheDB 10 "R1" ⟨"ipaddr", "dst", "1.2.3.4", "c", none⟩ 7 ⟨[], [], [], []⟩
       = ((true, none),
          { alertEntries := [], alertCaches := [], sectionRecords := [],
            attrCaches := [attributeCacheOf 10 "R1" ⟨"ipaddr", "dst", "1.2.3.4", "c", none⟩ 7] })) := by
  refine ⟨?_, ⟨rfl, ?_⟩, rfl, ?_⟩
  · exact (attributeCache_record_shape 10 "R1" _ 7 ⟨[], [], [], []⟩).1
  · exact (attributeCache_record_shape 10 "R1" _ 7 ⟨[], [], [], []⟩).2.2.1 rfl
  · have h := (attributeCache_record_shape 10 "R1"
      ⟨"ipaddr", "dst", "1.2.3.4", "c", none⟩ 7 ⟨[], [], [], []⟩).2.2.2 rfl
    simpa using h

/-- C10: every attribute returned by FetchAttributeCache carries a present
timestamp, namely the one stored at put time; consequently, for an
attribute stored without a timestamp, the fetched copy carries the
put-time clock value rather than an absent timestamp. -/
theorem fetchAttributeCache_timestamp_present (ttl : Int) (reportID : ReportID)
    (attr : Attribute) (now : Time) (db : DB) :
    (∀ a ∈ FetchAttributeCache reportID db, a.Timestamp ≠ none) ∧
    (attrEntriesAt db (toAttributeCacheKey reportID) attr.Hash = [] →
     attr.Timestamp = none →
      ∃ out ∈ FetchAttributeCache reportID (PutAttributeCacheDB ttl reportID attr now db).2,
        out.Type' = attr.Type' ∧ out.Key = attr.Key ∧ out.Value = attr.Value ∧
        out.Context = attr.Context ∧ out.Timestamp = some now ∧
        out.Timestamp ≠ attr.Timestamp) := by
  constructor
  · intro a ha
    rw [FetchAttributeCache, List.mem_map] at ha
    obtain ⟨cache, _, rfl⟩ := ha
    simp
  · intro h hts
    have hdb : (PutAttributeCacheDB ttl reportID attr now db).2
        = { db with attrCaches := db.attrCaches ++ [attributeCacheOf ttl reportID attr now] } := by
      unfold PutAttributeCacheDB DB.putAttributeCache
      dsimp only [attributeCacheOf]
      rw [h]
      simp [attributeCacheOf]
    rw [hdb]
    refine ⟨⟨attr.Type', attr.Key, attr.Value, attr.Context, some now⟩, ?_,
      rfl, rfl, rfl, rfl, rfl, by simp [hts]⟩
    unfold FetchAttributeCache DB.getAttributeCaches
    rw [List.mem_map]
    refine ⟨attributeCacheOf ttl reportID attr now, ?_, by simp [attributeCacheOf, hts]⟩
    rw [List.mem_filter]
    constructor
    · exact List.mem_append_right _ (List.mem_singleton.mpr rfl)
    · simp [attributeCacheOf]

/-
Helper lemmas for the staging round trips and fail-fast scans.
-/

theorem decodeAlertRows_ok (rows : List AlertCache)
    (h : ∀ c ∈ rows, ∃ a, decodeAlert c.AlertData = Except.ok a) :
    ∃ l, decodeAlertRows rows = Except.ok l ∧
      List.Forall₂ (fun c a => decodeAlert (AlertCache.AlertData c) = Except.ok a) rows l := by
  induction rows with
  | nil => exact ⟨[], rfl, List.Forall₂.nil⟩
  | cons c rest ih =>
      obtain ⟨a, ha⟩ := h c (List.mem_cons_self c rest)
      obtain ⟨l, hl, hf⟩ := ih (fun c2 hc2 => h c2 (List.mem_cons_of_mem c hc2))
      refine ⟨a :: l, ?_, List.Forall₂.cons ha hf⟩
      unfold decodeAlertRows
      rw [ha, hl]
      rfl

theorem decodeAlertRows_fail (pre : List AlertCache) (c : AlertCache)
    (post : List AlertCache)
    (hpre : ∀ c2 ∈ pre, ∃ a, decodeAlert c2.AlertData = Except.ok a)
    (m : String) (hm : decodeAlert c.AlertData = Except.error m) :
    decodeAlertRows (pre ++ c :: post)
      = Except.error ((DAError.wrap m "Fail to unmarshal alert").With "data" c.AlertData) := by
  induction pre with
  | nil =>
      rw [List.nil_append]
      unfold decodeAlertRows
      rw [hm]
  | cons p rest ih =>
      obtain ⟨a, ha⟩ := hpre p (List.mem_cons_self p rest)
      have ih2 := ih (fun c2 hc2 => hpre c2 (List.mem_cons_of_mem p hc2))
      rw [List.cons_append]
      unfold decodeAlertRows
      rw [ha, ih2]
      rfl

theorem decodeSectionRows_ok (rows : List ReportSectionRecord)
    (h : ∀ r ∈ rows, ∃ s, decodeSection r.Data = Except.ok s) :
    ∃ l, decodeSectionRows rows = Except.ok l ∧
      List.Forall₂ (fun r s => decodeSection (ReportSectionRecord.Data r) = Except.ok s) rows l := by
  induction rows with
  | nil => exact ⟨[], rfl, List.Forall₂.nil⟩
  | cons r rest ih =>
      obtain ⟨s, hs⟩ := h r (List.mem_cons_self r rest)
      obtain ⟨l, hl, hf⟩ := ih (fun r2 hr2 => h r2 (List.mem_cons_of_mem r hr2))
      refine ⟨s :: l, ?_, List.Forall₂.cons hs hf⟩
      unfold decodeSectionRows
      rw [hs, hl]
      rfl

theorem decodeSectionRows_fail (pre : List ReportSectionRecord)
    (r : ReportSectionRecord) (post : List ReportSectionRecord)
    (hpre : ∀ r2 ∈ pre, ∃ s, decodeSection r2.Data = Except.ok s)
    (m : String) (hm : decodeSection r.Data = Except.error m) :
    decodeSectionRows (pre ++ r :: post)
      = Except.error (DAError.wrapf m "Fail to unmarshal report content: %v %s" [r.Data]) := by
  induction pre with
  | nil =>
      rw [List.nil_append]
      unfold decodeSectionRows
      rw [hm]
  | cons p rest ih =>
      obtain ⟨s, hs⟩ := hpre p (List.mem_cons_self p rest)
      have ih2 := ih (fun r2 hr2 => hpre r2 (List.mem_cons_of_mem p hr2))
      rw [List.cons_append]
      unfold decodeSectionRows
      rw [hs, ih2]
      rfl

theorem decodeSectionRows_append (xs ys : List ReportSectionRecord)
    (l1 l2 : List ReportSection)
    (h1 : decodeSectionRows xs = Except.ok l1)
    (h2 : decodeSectionRows ys = Except.ok l2) :
    decodeSectionRows (xs ++ ys) = Except.ok (l1 ++ l2) := by
  induction xs generalizing l1 with
  | nil =>
      unfold decodeSectionRows at h1
      cases h1
      simpa using h2
  | cons r rest ih =>
      rw [List.cons_append]
      unfold decodeSectionRows at h1 ⊢
      cases hd : decodeSection r.Data with
      | error m =>
          rw [hd] at h1
          simp at h1
      | ok s =>
          rw [hd] at h1
          cases hrest : decodeSectionRows rest with
          | error m =>
              rw [hrest] at h1
              simp at h1
          | ok lrest =>
              rw [hrest] at h1
              have h1x : s :: lrest = l1 := by simpa using h1
              rw [← h1x, ih lrest hrest]
              rfl

/-- C4 as stated is refuted by the counterexample below; this is the
amended round-trip law.  Fetching after saving a report section yields the
previously decodable rows followed by a section equal field-for-field to
the saved one; fetching after a successful attribute put reproduces type,
key, value and context bit-for-bit, and the timestamp when the attribute
carries one, while an absent timestamp comes back as the put-time clock
value. -/
theorem roundTrip_amended (ttl : Int) (u : String) (sec : ReportSection) (now : Time)
    (db : DB) (reportID : ReportID) (attr : Attribute) :
    (∀ l, decodeSectionRows (db.getReportSection ("content/" ++ sec.ReportID)) = Except.ok l →
      FetchReportSection sec.ReportID (SaveReportSection ttl u sec now db)
        = Except.ok (l ++ [sec])) ∧
    (attrEntriesAt db (toAttributeCacheKey reportID) attr.Hash = [] →
      ∃ out ∈ FetchAttributeCache reportID (PutAttributeCacheDB ttl reportID attr now db).2,
        out.Type' = attr.Type' ∧ out.Key = attr.Key ∧ out.Value = attr.Value ∧
        out.Context = attr.Context ∧ out.Timestamp = some (attr.Timestamp.getD now)) := by
  constructor
  · intro l h
    have hone : decodeSectionRows
        [{ PKey := "content/" ++ sec.ReportID,
           SKey := sec.Attribute.Hash ++ "/" ++ u,
           ExpiresAt := now + ttl, CreatedAt := 0, Data := encodeSection sec }]
        = Except.ok [sec] := by
      unfold decodeSectionRows
      dsimp only
      rw [decodeSection_encode]
      rfl
    have hrows : (SaveReportSection ttl u sec now db).getReportSection
        ("content/" ++ sec.ReportID)
        = db.getReportSection ("content/" ++ sec.ReportID)
          ++ [{ PKey := "content/" ++ sec.ReportID,
                SKey := sec.Attribute.Hash ++ "/" ++ u,
                ExpiresAt := now + ttl, CreatedAt := 0, Data := encodeSection sec }] := by
      unfold SaveReportSection DB.putReportSectionRecord DB.getReportSection
        toReportSectionRecord
      dsimp only
      rw [List.filter_append]
      simp
    have hfetch : FetchReportSection sec.ReportID (SaveReportSection ttl u sec now db)
        = decodeSectionRows ((SaveReportSection ttl u sec now db).getReportSection
            ("content/" ++ sec.ReportID)) := rfl
    rw [hfetch, hrows]
    exact decodeSectionRows_append _ _ _ _ h hone
  · intro h
    have hdb : (PutAttributeCacheDB ttl reportID attr now db).2
        = { db with attrCaches := db.attrCaches ++ [attributeCacheOf ttl reportID attr now] } := by
      unfold PutAttributeCacheDB DB.putAttributeCache
      dsimp only [attributeCacheOf]
      rw [h]
      simp [attributeCacheOf]
    rw [hdb]
    refine ⟨⟨attr.Type', attr.Key, attr.Value, attr.Context,
      some (attr.Timestamp.getD now)⟩, ?_, rfl, rfl, rfl, rfl, rfl⟩
    unfold FetchAttributeCache DB.getAttributeCaches
    rw [List.mem_map]
    refine ⟨attributeCacheOf ttl reportID attr now, ?_, ?_⟩
    · rw [List.mem_filter]
      constructor
      · exact List.mem_append_right _ (List.mem_singleton.mpr rfl)
      · simp [attributeCacheOf]
    · cases hts : attr.Timestamp <;> simp [attributeCacheOf, hts]

/-- Counterexample to C4 as stated: an attribute stored without a
timestamp is not reproduced bit-for-bit — the put succeeds, and the single
fetched attribute carries the put-time clock value `some 7` instead of the
original absent timestamp. -/
theorem roundTrip_counterexample :
    attrEntriesAt ⟨[], [], [], []⟩ (toAttributeCacheKey "R1")
      (Attribute.mk "ipaddr" "dst" "1.2.3.4" "c" none).Hash = [] ∧
    (PutAttributeCacheDB 10 "R1" ⟨"ipaddr", "dst", "1.2.3.4", "c", none⟩ 7
      ⟨[], [], [], []⟩).1 = (true, none) ∧
    FetchAttributeCache "R1"
      (PutAttributeCacheDB 10 "R1" ⟨"ipaddr", "dst", "1.2.3.4", "c", none⟩ 7
        ⟨[], [], [], []⟩).2
      = [⟨"ipaddr", "dst", "1.2.3.4", "c", some 7⟩] ∧
    Attribute.mk "ipaddr" "dst" "1.2.3.4" "c" (some 7)
      ≠ Attribute.mk "ipaddr" "dst" "1.2.3.4" "c" none := by
  refine ⟨rfl, ?_, ?_, by decide⟩
  · rfl
  · rfl

/-- Witness for the amended round-trip law at a concrete section and a
concrete attribute carrying a timestamp, over an empty store. -/
theorem roundTrip_amended_witness :
    (decodeSectionRows ((⟨[], [], [], []⟩ : DB).getReportSection ("content/" ++ "R1"))
      = Except.ok [] ∧
     FetchReportSection "R1"
        (SaveReportSection 10 "u1"
          ⟨"R1", "auth", ⟨"ipaddr", "dst", "1.2.3.4", "c", some 5⟩, .user "bob"⟩ 7
          ⟨[], [], [], []⟩)
      = Except.ok ([] ++ [⟨"R1", "auth", ⟨"ipaddr", "dst", "1.2.3.4", "c", some 5⟩,
          .user "bob"⟩])) ∧
    (attrEntriesAt ⟨[], [], [], []⟩ (toAttributeCacheKey "R1")
        (Attribute.mk "ipaddr" "dst" "1.2.3.4" "c" (some 5)).Hash = [] ∧
     ∃ out ∈ FetchAttributeCache "R1"
        (PutAttributeCacheDB 10 "R1" ⟨"ipaddr", "dst", "1.2.3.4", "c", some 5⟩ 7
          ⟨[], [], [], []⟩).2,
        out.Type' = "ipaddr" ∧ out.Key = "dst" ∧ out.Value = "1.2.3.4" ∧
        out.Context = "c" ∧ out.Timestamp = some ((some (5 : Int)).getD 7)) := by
  constructor
  · refine ⟨rfl, ?_⟩
    exact (roundTrip_amended 10 "u1"
      ⟨"R1", "auth", ⟨"ipaddr", "dst", "1.2.3.4", "c", some 5⟩, .user "bob"⟩ 7
      ⟨[], [], [], []⟩ "R1" ⟨"ipaddr", "dst", "1.2.3.4", "c", some 5⟩).1 [] rfl
  · refine ⟨rfl, ?_⟩
    exact (roundTrip_amended 10 "u1"
      ⟨"R1", "auth", ⟨"ipaddr", "dst", "1.2.3.4", "c", some 5⟩, .user "bob"⟩ 7
      ⟨[], [], [], []⟩ "R1" ⟨"ipaddr", "dst", "1.2.3.4", "c", some 5⟩).2 rfl

/-- C5: the staged fetches are fail-fast.  If every scanned row under the
report deserializes, the fetch returns all decoded rows in order with no
error; if some row fails to deserialize, the whole fetch returns an error
carrying that row's raw payload (as attached context for the alert cache
and as a format argument for report sections) and no partial list. -/
theorem fetch_fail_fast (reportID : ReportID) (u : String) (db : DB) :
    ((∀ c ∈ db.getAlertCaches ("alert/" ++ reportID),
        ∃ a, decodeAlert c.AlertData = Except.ok a) →
      ∃ l, FetchAlertCache reportID u db = Except.ok l ∧
        List.Forall₂ (fun c a => decodeAlert (AlertCache.AlertData c) = Except.ok a)
          (db.getAlertCaches ("alert/" ++ reportID)) l) ∧
    (∀ pre c post, db.getAlertCaches ("alert/" ++ reportID) = pre ++ c :: post →
      (∀ c2 ∈ pre, ∃ a, decodeAlert c2.AlertData = Except.ok a) →
      ∀ m, decodeAlert c.AlertData = Except.error m →
      ∃ e, FetchAlertCache reportID u db = Except.error e ∧
        ("data", c.AlertData) ∈ e.context) ∧
    ((∀ r ∈ db.getReportSection ("content/" ++ reportID),
        ∃ s, decodeSection r.Data = Except.ok s) →
      ∃ l, FetchReportSection reportID db = Except.ok l ∧
        List.Forall₂ (fun r s => decodeSection (ReportSectionRecord.Data r) = Except.ok s)
          (db.getReportSection ("content/" ++ reportID)) l) ∧
    (∀ pre r post, db.getReportSection ("content/" ++ reportID) = pre ++ r :: post →
      (∀ r2 ∈ pre, ∃ s, decodeSection r2.Data = Except.ok s) →
      ∀ m, decodeSection r.Data = Except.error m →
      ∃ e, FetchReportSection reportID db = Except.error e ∧ r.Data ∈ e.args) := by
  have hfa : FetchAlertCache reportID u db
      = decodeAlertRows (db.getAlertCaches ("alert/" ++ reportID)) := rfl
  have hfs : FetchReportSection reportID db
      = decodeSectionRows (db.getReportSection ("content/" ++ reportID)) := rfl
  refine ⟨?_, ?_, ?_, ?_⟩
  · intro h
    obtain ⟨l, hl, hf⟩ := decodeAlertRows_ok _ h
    exact ⟨l, by rw [hfa, hl], hf⟩
  · intro pre c post hsplit hpre m hm
    refine ⟨(DAError.wrap m "Fail to unmarshal alert").With "data" c.AlertData, ?_, ?_⟩
    · rw [hfa, hsplit]
      exact decodeAlertRows_fail pre c post hpre m hm
    · simp [DAError.With, DAError.wrap]
  · intro h
    obtain ⟨l, hl, hf⟩ := decodeSectionRows_ok _ h
    exact ⟨l, by rw [hfs, hl], hf⟩
  · intro pre r post hsplit hpre m hm
    refine ⟨DAError.wrapf m "Fail to unmarshal report content: %v %s" [r.Data], ?_, ?_⟩
    · rw [hfs, hsplit]
      exact decodeSectionRows_fail pre r post hpre m hm
    · simp [DAError.wrapf]

/-- Witness for the fail-fast fetch theorem: a store whose single alert
row and single section row decode (the fetch succeeds on both), and a
store whose single row is corrupt (both fetches abort carrying the raw
payload). -/
theorem fetch_fail_fast_witness :
    (∃ l, FetchAlertCache "R" "u1"
        ⟨[], [⟨"alert/R", "cache/u1", encodeAlert ⟨"d", "r", "k"⟩, 99⟩], [], []⟩
      = Except.ok l ∧
      List.Forall₂ (fun c a => decodeAlert (AlertCache.AlertData c) = Except.ok a)
        ((⟨[], [⟨"alert/R", "cache/u1", encodeAlert ⟨"d", "r", "k"⟩, 99⟩], [], []⟩ : DB).getAlertCaches
          ("alert/" ++ "R")) l) ∧
    (∃ e, FetchAlertCache "R" "u1" ⟨[], [⟨"alert/R", "cache/u1", Json.null, 99⟩], [], []⟩
      = Except.error e ∧ ("data", Json.null) ∈ e.context) ∧
    (∃ e, FetchReportSection "R"
        ⟨[], [], [{ PKey := "content/R", SKey := "h/u", ExpiresAt := 99, CreatedAt := 0,
                    Data := Json.null }], []⟩
      = Except.error e ∧ Json.null ∈ e.args) := by
  refine ⟨?_, ?_, ?_⟩
  · refine (fetch_fail_fast "R" "u1" _).1 ?_
    intro c hc
    have hrows : (⟨[], [⟨"alert/R", "cache/u1", encodeAlert ⟨"d", "r", "k"⟩, 99⟩], [], []⟩ : DB).getAlertCaches
        ("alert/" ++ "R") = [⟨"alert/R", "cache/u1", encodeAlert ⟨"d", "r", "k"⟩, 99⟩] := rfl
    rw [hrows, List.mem_singleton] at hc
    subst hc
    exact ⟨⟨"d", "r", "k"⟩, rfl⟩
  · refine (fetch_fail_fast "R" "u1" _).2.1 [] ⟨"alert/R", "cache/u1", Json.null, 99⟩ [] rfl ?_
      "missing detector" rfl
    intro c2 hc2
    simp at hc2
  · refine (fetch_fail_fast "R" "u1" _).2.2.2 []
      { PKey := "content/R", SKey := "h/u", ExpiresAt := 99, CreatedAt := 0,
        Data := Json.null } [] rfl ?_ "missing reportID" rfl
    intro r2 hr2
    simp at hr2

/-- Witness for the fetched-timestamp theorem at a concrete attribute
without a timestamp. -/
theorem fetchAttributeCache_timestamp_present_witness :
    attrEntriesAt ⟨[], [], [], []⟩ (toAttributeCacheKey "R1")
      (Attribute.mk "ipaddr" "dst" "1.2.3.4" "c" none).Hash = [] ∧
    (Attribute.mk "ipaddr" "dst" "1.2.3.4" "c" none).Timestamp = none ∧
    ∃ out ∈ FetchAttributeCache "R1"
        (PutAttributeCacheDB 10 "R1" ⟨"ipaddr", "dst", "1.2.3.4", "c", none⟩ 7
          ⟨[], [], [], []⟩).2,
      out.Timestamp = some 7 ∧ out.Timestamp ≠ (Attribute.mk "ipaddr" "dst" "1.2.3.4" "c" none).Timestamp := by
  refine ⟨rfl, rfl, ?_⟩
  obtain ⟨out, hmem, _, _, _, _, hts, hne⟩ :=
    (fetchAttributeCache_timestamp_present 10 "R1"
      ⟨"ipaddr", "dst", "1.2.3.4", "c", none⟩ 7 ⟨[], [], [], []⟩).2 rfl rfl
  exact ⟨out, hmem, hts, hne⟩

/-
Helper lemmas for the concurrent correlation system.
-/

theorem find?_eq_filter_head? {α : Type} (p : α → Bool) :
    ∀ l : List α, l.find? p = (l.filter p).head? := by
  intro l
  induction l with
  | nil => rfl
  | cons a l ih =>
      cases h : p a with
      | true =>
          rw [List.find?_cons_of_pos l h, List.filter_cons_of_pos h]
          rfl
      | false =>
          rw [List.find?_cons_of_neg l (by simp [h]), List.filter_cons_of_neg (by simp [h])]
          exact ih

theorem getAlertEntry_single (db : DB) (pk sk : String) (e : AlertEntry)
    (h : entriesAt db pk sk = [e]) : db.getAlertEntry pk sk = Except.ok e := by
  unfold DB.getAlertEntry
  rw [find?_eq_filter_head?]
  have h2 : db.alertEntries.filter (fun r => r.PKey == pk && r.SKey == sk) = [e] := h
  rw [h2]
  rfl

theorem countP_set_add {α : Type} (p : α → Bool) :
    ∀ (l : List α) (i : Nat) (a b : α), l.get? i = some a →
      (l.set i b).countP p + (if p a then 1 else 0)
        = l.countP p + (if p b then 1 else 0) := by
  intro l
  induction l with
  | nil =>
      intro i a b h
      simp at h
  | cons x xs ih =>
      intro i a b h
      cases i with
      | zero =>
          rw [List.get?] at h
          cases h
          simp only [List.set, List.countP_cons]
          omega
      | succ i =>
          rw [List.get?] at h
          have h2 := ih i a b h
          simp only [List.set, List.countP_cons]
          omega

theorem entriesAt_put (db : DB) (e : AlertEntry) (pk sk : String)
    (hpk : e.PKey = pk) (hsk : e.SKey = sk) :
    entriesAt { db with alertEntries := db.alertEntries ++ [e] } pk sk
      = entriesAt db pk sk ++ [e] := by
  simp [entriesAt, List.filter_append, hpk, hsk]

theorem isDone_iff (st : TakeState) : st.isDone = true ↔ ∃ r, st = .done r := by
  cases st <;> simp [TakeState.isDone]

theorem inv_step (ttl : Int) (alert : Alert) (s : DB × List TakeState) (i : Nat)
    (hInv : Inv alert s) : Inv alert (stepSys ttl alert s i) := by
  obtain ⟨hcount, hle, hall⟩ := hInv
  unfold stepSys
  cases hget : s.2.get? i with
  | none => exact ⟨hcount, hle, hall⟩
  | some st =>
      have hmem : st ∈ s.2 := List.get?_mem hget
      cases st with
      | start freshID now =>
          dsimp only [stepCaller, DB.putAlertEntry]
          cases hE : entriesAt s.1 (alertEntryOf ttl alert now freshID).PKey
              (alertEntryOf ttl alert now freshID).SKey with
          | nil =>
              show Inv alert
                (DB.mk (s.1.alertEntries ++ [alertEntryOf ttl alert now freshID])
                  s.1.alertCaches s.1.sectionRecords s.1.attrCaches,
                 s.2.set i (TakeState.done (Except.ok
                   { ID := freshID, Status := .New, CreatedAt := now })))
              have hE0 : s.1.alertEntries.filter
                  (fun r => r.PKey == alertPKey alert && r.SKey == "Fixed") = [] := hE
              have hE2 : entriesAt
                  (DB.mk (s.1.alertEntries ++ [alertEntryOf ttl alert now freshID])
                    s.1.alertCaches s.1.sectionRecords s.1.attrCaches)
                  (alertPKey alert) "Fixed" = [alertEntryOf ttl alert now freshID] := by
                simp [entriesAt, List.filter_append, hE0, alertEntryOf]
              unfold Inv
              dsimp only
              refine ⟨?_, ?_, ?_⟩
              · have hc2 := countP_set_add isNewDone s.2 i _
                  (TakeState.done (Except.ok
                    { ID := freshID, Status := .New, CreatedAt := now })) hget
                have ha : isNewDone (TakeState.start freshID now) = false := rfl
                have hb : isNewDone (TakeState.done (Except.ok
                  { ID := freshID, Status := .New, CreatedAt := now })) = true := rfl
                rw [ha, hb] at hc2
                rw [show (if (false = true) then 1 else 0) = 0 from rfl,
                    show (if (true = true) then 1 else 0) = 1 from rfl] at hc2
                have hz : entriesAt s.1 (alertPKey alert) "Fixed" = [] := hE0
                rw [hz] at hcount
                simp only [List.length_nil] at hcount
                rw [hE2]
                simp only [List.length_cons, List.length_nil]
                omega
              · rw [hE2]
                simp
              · intro st2 hst2
                rcases List.mem_or_eq_of_mem_set hst2 with hmem2 | rfl
                · constructor
                  · intro _
                    rw [hE2]
                    simp
                  · intro r hr
                    obtain ⟨rep, e, _, hEold, _, _⟩ := (hall st2 hmem2).2 r hr
                    have hz : entriesAt s.1 (alertPKey alert) "Fixed" = [] := hE0
                    rw [hz] at hEold
                    simp at hEold
                · constructor
                  · intro h
                    cases h
                  · intro r hr
                    cases hr
                    exact ⟨{ ID := freshID, Status := .New, CreatedAt := now },
                      alertEntryOf ttl alert now freshID, rfl, hE2, rfl, Or.inl rfl⟩
          | cons e0 rest0 =>
              show Inv alert (s.1, s.2.set i TakeState.reading)
              have hE0 : entriesAt s.1 (alertPKey alert) "Fixed" = e0 :: rest0 := hE
              unfold Inv
              dsimp only
              refine ⟨?_, hle, ?_⟩
              · have hc2 := countP_set_add isNewDone s.2 i _ TakeState.reading hget
                have ha : isNewDone (TakeState.start freshID now) = false := rfl
                have hb : isNewDone TakeState.reading = false := rfl
                rw [ha, hb] at hc2
                rw [show (if (false = true) then 1 else 0) = 0 from rfl] at hc2
                omega
              · intro st2 hst2
                rcases List.mem_or_eq_of_mem_set hst2 with hmem2 | rfl
                · exact hall st2 hmem2
                · constructor
                  · intro _
                    rw [hE0]
                    simp
                  · intro r hr
                    cases hr
      | reading =>
          have hne : entriesAt s.1 (alertPKey alert) "Fixed" ≠ [] :=
            (hall _ hmem).1 rfl
          obtain ⟨e, hE⟩ : ∃ e, entriesAt s.1 (alertPKey alert) "Fixed" = [e] := by
            cases hEc : entriesAt s.1 (alertPKey alert) "Fixed" with
            | nil => exact absurd hEc hne
            | cons x xs =>
                cases xs with
                | nil => exact ⟨x, rfl⟩
                | cons y ys =>
                    rw [hEc] at hle
                    simp at hle
          dsimp only [stepCaller]
          rw [getAlertEntry_single s.1 _ _ e hE]
          show Inv alert (s.1, s.2.set i (TakeState.done (Except.ok
            { ID := e.ReportID, Status := .More, CreatedAt := e.CreatedAt })))
          unfold Inv
          dsimp only
          refine ⟨?_, hle, ?_⟩
          · have hc2 := countP_set_add isNewDone s.2 i _
              (TakeState.done (Except.ok
                { ID := e.ReportID, Status := .More, CreatedAt := e.CreatedAt })) hget
            have ha : isNewDone TakeState.reading = false := rfl
            have hb : isNewDone (TakeState.done (Except.ok
              { ID := e.ReportID, Status := .More, CreatedAt := e.CreatedAt })) = false := rfl
            rw [ha, hb] at hc2
            rw [show (if (false = true) then 1 else 0) = 0 from rfl] at hc2
            omega
          · intro st2 hst2
            rcases List.mem_or_eq_of_mem_set hst2 with hmem2 | rfl
            · exact hall st2 hmem2
            · constructor
              · intro h
                cases h
              · intro r hr
                cases hr
                exact ⟨{ ID := e.ReportID, Status := .More, CreatedAt := e.CreatedAt },
                  e, rfl, hE, rfl, Or.inr rfl⟩
      | done r =>
          show Inv alert (s.1, s.2.set i (TakeState.done r))
          unfold Inv
          dsimp only
          refine ⟨?_, hle, ?_⟩
          · have hc2 := countP_set_add isNewDone s.2 i _ (TakeState.done r) hget
            omega
          · intro st2 hst2
            rcases List.mem_or_eq_of_mem_set hst2 with hmem2 | rfl
            · exact hall st2 hmem2
            · exact hall _ hmem

theorem runSys_inv (ttl : Int) (alert : Alert) :
    ∀ (sched : List Nat) (s : DB × List TakeState),
      Inv alert s → Inv alert (runSys ttl alert s sched) := by
  intro sched
  induction sched with
  | nil => intro s h; exact h
  | cons i rest ih =>
      intro s h
      exact ih _ (inv_step ttl alert s i h)

theorem length_runSys (ttl : Int) (alert : Alert) :
    ∀ (sched : List Nat) (s : DB × List TakeState),
      (runSys ttl alert s sched).2.length = s.2.length := by
  intro sched
  induction sched with
  | nil => intro s; rfl
  | cons i rest ih =>
      intro s
      rw [runSys, ih]
      unfold stepSys
      cases hget : s.2.get? i with
      | none => rfl
      | some st => simp [List.length_set]

/-- C9: idempotent correlation under concurrency.  Starting from a store
with no entry at the alert's key and any number of concurrent TakeReport
callers for the same alert identity, after any schedule under which every
caller finishes: exactly one caller finished with status New, exactly one
alert entry exists at the key, and every caller finished ok with the
stored entry's report identifier and status New or More. -/
theorem takeReport_idempotent_correlation (ttl : Int) (alert : Alert)
    (inits : List (ReportID × Time)) (db0 : DB) (sched : List Nat)
    (hne : inits ≠ [])
    (h0 : entriesAt db0 (alertPKey alert) "Fixed" = [])
    (hdone : ∀ st ∈ (finalSys ttl alert inits db0 sched).2, st.isDone = true) :
    (finalSys ttl alert inits db0 sched).2.countP isNewDone = 1 ∧
    (entriesAt (finalSys ttl alert inits db0 sched).1 (alertPKey alert) "Fixed").length = 1 ∧
    ∃ e, entriesAt (finalSys ttl alert inits db0 sched).1 (alertPKey alert) "Fixed" = [e] ∧
      ∀ st ∈ (finalSys ttl alert inits db0 sched).2,
        ∃ rep, st = TakeState.done (Except.ok rep) ∧ rep.ID = e.ReportID ∧
          (rep.Status = .New ∨ rep.Status = .More) := by
  have hInv0 : Inv alert (db0, initSys inits) := by
    refine ⟨?_, ?_, ?_⟩
    · rw [h0]
      symm
      apply List.countP_eq_zero.mpr
      intro st hst
      unfold initSys at hst
      rw [List.mem_map] at hst
      obtain ⟨p, _, rfl⟩ := hst
      simp [isNewDone]
    · rw [h0]
      simp
    · intro st hst
      unfold initSys at hst
      rw [List.mem_map] at hst
      obtain ⟨p, _, rfl⟩ := hst
      constructor
      · intro h
        cases h
      · intro r h
        cases h
  have hInv : Inv alert (finalSys ttl alert inits db0 sched) :=
    runSys_inv ttl alert sched (db0, initSys inits) hInv0
  obtain ⟨hcount, hle, hall⟩ := hInv
  have hlen : (finalSys ttl alert inits db0 sched).2.length = inits.length := by
    have h1 := length_runSys ttl alert sched (db0, initSys inits)
    have h2 : (initSys inits).length = inits.length := List.length_map _ _
    exact h1.trans h2
  obtain ⟨st0, hst0⟩ : ∃ st, st ∈ (finalSys ttl alert inits db0 sched).2 := by
    cases hL : (finalSys ttl alert inits db0 sched).2 with
    | nil =>
        rw [hL] at hlen
        exact absurd (List.length_eq_zero.mp hlen.symm) hne
    | cons x xs => exact ⟨x, List.mem_cons_self x xs⟩
  obtain ⟨r0, hr0⟩ := (isDone_iff st0).mp (hdone st0 hst0)
  obtain ⟨rep0, e, _, hE, _, _⟩ := (hall st0 hst0).2 r0 hr0
  refine ⟨?_, ?_, e, hE, ?_⟩
  · rw [← hcount, hE]
    rfl
  · rw [hE]
    rfl
  · intro st hst
    obtain ⟨r, hr⟩ := (isDone_iff st).mp (hdone st hst)
    obtain ⟨rep, e2, hok, hE2, hid, hstat⟩ := (hall st hst).2 r hr
    have he2 : e2 = e := by
      rw [hE] at hE2
      injection hE2 with h1 _
      exact h1.symm
    refine ⟨rep, ?_, ?_, hstat⟩
    · rw [hr, hok]
    · rw [hid, he2]

/-- Witness for idempotent correlation: two concurrent callers for the
same alert on an empty store, under the schedule in which the second
caller's conditional put lands after the first caller finished, forcing
the second onto the read-back path. -/
theorem takeReport_idempotent_correlation_witness :
    ([("rid-1", (100 : Time)), ("rid-2", 200)] : List (ReportID × Time)) ≠ [] ∧
    entriesAt ⟨[], [], [], []⟩ (alertPKey ⟨"d", "r", "k"⟩) "Fixed" = [] ∧
    (∀ st ∈ (finalSys 10 ⟨"d", "r", "k"⟩ [("rid-1", 100), ("rid-2", 200)]
        ⟨[], [], [], []⟩ [0, 1, 1]).2, st.isDone = true) ∧
    ((finalSys 10 ⟨"d", "r", "k"⟩ [("rid-1", 100), ("rid-2", 200)]
        ⟨[], [], [], []⟩ [0, 1, 1]).2.countP isNewDone = 1 ∧
     (entriesAt (finalSys 10 ⟨"d", "r", "k"⟩ [("rid-1", 100), ("rid-2", 200)]
        ⟨[], [], [], []⟩ [0, 1, 1]).1 (alertPKey ⟨"d", "r", "k"⟩) "Fixed").length = 1 ∧
     ∃ e, entriesAt (finalSys 10 ⟨"d", "r", "k"⟩ [("rid-1", 100), ("rid-2", 200)]
        ⟨[], [], [], []⟩ [0, 1, 1]).1 (alertPKey ⟨"d", "r", "k"⟩) "Fixed" = [e] ∧
      ∀ st ∈ (finalSys 10 ⟨"d", "r", "k"⟩ [("rid-1", 100), ("rid-2", 200)]
          ⟨[], [], [], []⟩ [0, 1, 1]).2,
        ∃ rep, st = TakeState.done (Except.ok rep) ∧ rep.ID = e.ReportID ∧
          (rep.Status = .New ∨ rep.Status = .More)) := by
  have hall : ∀ st ∈ (finalSys 10 ⟨"d", "r", "k"⟩ [("rid-1", 100), ("rid-2", 200)]
      ⟨[], [], [], []⟩ [0, 1, 1]).2, st.isDone = true :=
    List.all_eq_true.mp rfl
  exact ⟨by simp, rfl, hall,
    takeReport_idempotent_correlation 10 ⟨"d", "r", "k"⟩
      [("rid-1", 100), ("rid-2", 200)] ⟨[], [], [], []⟩ [0, 1, 1] (by simp) rfl hall⟩

end DeepAlert

